import Mathlib

/-!
Verification of the streaming-source core of sophia_rs:
the `MapSource` combinator and its push-to-pull bridge
(`src/api/src/source/map.rs`), and the batch/deferred-error producer
`JsonLdQuadSource` (`src/jsonld/src/parser/source.rs`).

Rust's `FnMut` callbacks are embedded as state-passing functions
`σ → Item → σ × Option δ`: the callback returns its updated captured
state and `none` for `Ok(())`, `some e` for `Err(e)`.  `Vec`/`VecDeque`
become `List` (front of the list = front of the deque), and
`StreamResult<T, E1, E2>` becomes `Except (StreamError ε1 δ) T`.
-/

namespace Sophia

/-- Mirrors `StreamError<E1, E2>` of sophia_api: an error tagged as coming
from the producing source (`SourceError`) or from the consuming sink
(`SinkError`). -/
inductive StreamError (ε1 δ : Type) where
  | SourceError (e : ε1)
  | SinkError (e : δ)
deriving DecidableEq

/-- Mirrors `StreamResult<T, E1, E2> = Result<T, StreamError<E1, E2>>`. -/
abbrev StreamResult (T ε1 δ : Type) := Except (StreamError ε1 δ) T

instance {ε1 δ T : Type} [DecidableEq ε1] [DecidableEq δ] [DecidableEq T] :
    DecidableEq (StreamResult T ε1 δ) := fun a b =>
  match a, b with
  | .ok x, .ok y =>
    if h : x = y then isTrue (by rw [h]) else isFalse (by intro hc; cases hc; exact h rfl)
  | .ok _, .error _ => isFalse (by intro hc; cases hc)
  | .error _, .ok _ => isFalse (by intro hc; cases hc)
  | .error x, .error y =>
    if h : x = y then isTrue (by rw [h]) else isFalse (by intro hc; cases hc; exact h rfl)

/-- Mirrors `JsonLdQuadSource` from `src/jsonld/src/parser/source.rs`.
The quad payload `Spog<RdfTerm>` and the error payload `JsonLdError` are
opaque to this core, so they are type parameters `Q` and `ε`.
The `std::vec::IntoIter` of quads is embedded as a `List` whose head is
the next quad the iterator would yield. -/
inductive JsonLdQuadSource (Q ε : Type) where
  | Quads (quads : List Q)
  | Err (opt : Option ε)
deriving DecidableEq

/-- Mirrors `JsonLdQuadSource::try_for_some_item`:
in the `Quads` state, pop the next quad if any, hand it to the callback,
and map a callback failure to `SinkError`; with no quad left return
`Ok(false)`.  In the `Err` state, `take()` the carried error: return it as
`SourceError` the first time, `Ok(false)` ever after. -/
def JsonLdQuadSource.try_for_some_item {Q ε σ δ : Type}
    (s : JsonLdQuadSource Q ε) (f : σ → Q → σ × Option δ) (st : σ) :
    JsonLdQuadSource Q ε × σ × StreamResult Bool ε δ :=
  match s with
  | .Quads quads =>
    match quads with
    | q :: rest =>
      match f st q with
      | (st2, none) => (.Quads rest, st2, .ok true)
      | (st2, some e) => (.Quads rest, st2, .error (.SinkError e))
    | [] => (.Quads [], st, .ok false)
  | .Err o =>
    match o with
    | some e => (.Err none, st, .error (.SourceError e))
    | none => (.Err none, st, .ok false)

/-- Modelled from the spec: the drive-to-completion convenience helper of
the Streaming Source protocol (its Rust counterpart, the provided
`try_for_each_item`, lives in the part of sophia_api that is outside this
slice).  It repeatedly calls the given production step until the step
returns exhausted or an error; `fuel` bounds the number of calls, and a
run that exhausts its fuel answers `Ok true` (more may remain). -/
def driveN {α σ ε3 : Type} (step : α → σ → α × σ × Except ε3 Bool) :
    Nat → α → σ → α × σ × Except ε3 Bool
  | 0, a, st => (a, st, .ok true)
  | Nat.succ n, a, st =>
    match step a st with
    | (a2, st2, .ok true) => driveN step n a2 st2
    | (a2, st2, .ok false) => (a2, st2, .ok false)
    | (a2, st2, .error e) => (a2, st2, .error e)

/-- A callback that never fails and appends each delivered record to its
state, used to observe exactly which records a source delivers. -/
def collectCb {Q δ : Type} : List Q → Q → List Q × Option δ :=
  fun acc q => (acc ++ [q], none)

lemma jsonld_drive_collect {Q ε δ : Type} :
    ∀ (qs acc : List Q),
      driveN (fun (s : JsonLdQuadSource Q ε) st =>
          s.try_for_some_item (collectCb (δ := δ)) st)
        (qs.length + 1) (.Quads qs) acc
      = (.Quads [], acc ++ qs, .ok false) := by
  intro qs
  induction qs with
  | nil => intro acc; simp [driveN, JsonLdQuadSource.try_for_some_item]
  | cons q rest ih =>
    intro acc
    have step1 :
        driveN (fun (s : JsonLdQuadSource Q ε) st =>
            s.try_for_some_item (collectCb (δ := δ)) st)
          ((q :: rest).length + 1) (.Quads (q :: rest)) acc
        = driveN (fun (s : JsonLdQuadSource Q ε) st =>
            s.try_for_some_item (collectCb (δ := δ)) st)
          (rest.length + 1) (.Quads rest) (acc ++ [q]) := rfl
    rw [step1, ih (acc ++ [q])]
    simp

/-- Claim C5: in the ready state the batch producer delivers the remaining
quads to the callback one per call, in sequence order, and a drive to
completion collects exactly the quad sequence before answering exhausted
(`Ok false`); a failing callback result surfaces as a consumer
(`SinkError`) error. -/
theorem c5_ready_delivers_in_order {Q ε σ δ : Type}
    (qs : List Q) (acc : List Q) (q : Q) (rest : List Q)
    (f : σ → Q → σ × Option δ) (st st2 : σ) (e : δ)
    (hf : f st q = (st2, some e)) :
    driveN (fun (s : JsonLdQuadSource Q ε) st =>
        s.try_for_some_item (collectCb (δ := δ)) st)
      (qs.length + 1) (.Quads qs) acc
      = (.Quads [], acc ++ qs, .ok false)
    ∧ (JsonLdQuadSource.Quads (ε := ε) (q :: rest)).try_for_some_item f st
      = (.Quads rest, st2, .error (.SinkError e)) := by
  constructor
  · exact jsonld_drive_collect qs acc
  · simp [JsonLdQuadSource.try_for_some_item, hf]

theorem c5_witness :
    ((fun (st : Unit) (_ : Nat) => (st, some 0)) () 5 = ((), some 0))
    ∧ (driveN (fun (s : JsonLdQuadSource Nat Nat) st =>
          s.try_for_some_item (collectCb (δ := Nat)) st)
        ([1, 2, 3].length + 1) (.Quads [1, 2, 3]) []
        = (.Quads [], [] ++ [1, 2, 3], .ok false)
      ∧ (JsonLdQuadSource.Quads (ε := Nat) [5, 6]).try_for_some_item
          (fun (st : Unit) (_ : Nat) => (st, some 0)) ()
        = (.Quads [6], (), .error (.SinkError 0))) :=
  ⟨rfl, c5_ready_delivers_in_order [1, 2, 3] [] 5 [6]
    (fun st _ => (st, some 0)) () () 0 rfl⟩

/-- Claim C9: each call in the ready state delivers at most one quad (the
callback is applied exactly once, to the head quad), and returns `true`
whenever a quad was delivered — in particular also when that quad was the
last one (`rest` may be `[]`); exhaustion (`Ok false`) is only reported by
a call that finds the sequence already empty. -/
theorem c9_at_most_one_quad {Q ε σ δ : Type}
    (q : Q) (rest : List Q) (f : σ → Q → σ × Option δ) (st st2 : σ)
    (hf : f st q = (st2, none)) :
    (JsonLdQuadSource.Quads (ε := ε) (q :: rest)).try_for_some_item f st
      = (.Quads rest, st2, .ok true)
    ∧ (JsonLdQuadSource.Quads (ε := ε) ([] : List Q)).try_for_some_item f st
      = (.Quads [], st, .ok false) := by
  constructor
  · simp [JsonLdQuadSource.try_for_some_item, hf]
  · simp [JsonLdQuadSource.try_for_some_item]

theorem c9_witness :
    (collectCb (δ := Nat) [] 7 = ([7], none))
    ∧ ((JsonLdQuadSource.Quads (ε := Nat) [7]).try_for_some_item
          (collectCb (δ := Nat)) []
        = (.Quads [], [7], .ok true)
      ∧ (JsonLdQuadSource.Quads (ε := Nat) ([] : List Nat)).try_for_some_item
          (collectCb (δ := Nat)) []
        = (.Quads [], [], .ok false)) :=
  ⟨rfl, c9_at_most_one_quad 7 [] (collectCb (δ := Nat)) [] [7] rfl⟩

/-- Claim C8: when the callback fails on the head quad, that quad has
already been popped from the internal iterator — the call returns a
`SinkError` with state `Quads rest` — and the next poll delivers the
following quad, never the one on which the callback failed. -/
theorem c8_consumer_error_consumes_quad {Q ε σ δ : Type}
    (q q2 : Q) (rest2 : List Q)
    (f : σ → Q → σ × Option δ) (st st2 : σ) (e : δ)
    (f2 : σ → Q → σ × Option δ) (st3 st4 : σ)
    (hf : f st q = (st2, some e)) (hf2 : f2 st3 q2 = (st4, none)) :
    (JsonLdQuadSource.Quads (ε := ε) (q :: q2 :: rest2)).try_for_some_item f st
      = (.Quads (q2 :: rest2), st2, .error (.SinkError e))
    ∧ (JsonLdQuadSource.Quads (ε := ε) (q2 :: rest2)).try_for_some_item f2 st3
      = (.Quads rest2, st4, .ok true) := by
  constructor
  · simp [JsonLdQuadSource.try_for_some_item, hf]
  · simp [JsonLdQuadSource.try_for_some_item, hf2]

theorem c8_witness :
    ((fun (st : List Nat) (_ : Nat) => (st, some 9)) [] 1 = ([], some 9))
    ∧ (collectCb (δ := Nat) [] 2 = ([2], none))
    ∧ ((JsonLdQuadSource.Quads (ε := Nat) [1, 2, 3]).try_for_some_item
          (fun (st : List Nat) (_ : Nat) => (st, some 9)) []
        = (.Quads [2, 3], [], .error (.SinkError 9))
      ∧ (JsonLdQuadSource.Quads (ε := Nat) [2, 3]).try_for_some_item
          (collectCb (δ := Nat)) []
        = (.Quads [3], [2], .ok true)) :=
  ⟨rfl, rfl, c8_consumer_error_consumes_quad 1 2 [3]
    (fun st _ => (st, some 9)) [] [] 9 (collectCb (δ := Nat)) [] [2] rfl rfl⟩

/-- Claim C4: a deferred-error producer constructed in the failed state
(`Err (some e)`, zero pre-materialized records) returns the carried
producer error `e` on the very first call, moving to `Err none`; and the
`Err none` state is a fixed point that answers exhausted (`Ok false`) on
every call, so every subsequent poll reports exhausted. -/
theorem c4_deferred_error_first_then_exhausted {Q ε σ δ : Type}
    (e : ε) (f : σ → Q → σ × Option δ) (st : σ) :
    (JsonLdQuadSource.Err (Q := Q) (some e)).try_for_some_item f st
      = (.Err none, st, .error (.SourceError e))
    ∧ ∀ (f2 : σ → Q → σ × Option δ) (st2 : σ),
        (JsonLdQuadSource.Err (Q := Q) (none : Option ε)).try_for_some_item f2 st2
          = (.Err none, st2, .ok false) := by
  exact ⟨rfl, fun f2 st2 => rfl⟩

/-- Claim C3, counterexample: after `JsonLdQuadSource` has raised its
producer error, the next poll does not return the same terminal signal:
the first poll answers `SourceError 7`, the second answers `Ok false`, and
the two signals differ. -/
theorem c3_cex_error_then_exhausted :
    ((JsonLdQuadSource.Err (Q := Nat) (some 7)).try_for_some_item
        (collectCb (δ := Nat)) []).2.2
      = .error (.SourceError 7)
    ∧ (((JsonLdQuadSource.Err (Q := Nat) (some 7)).try_for_some_item
          (collectCb (δ := Nat)) []).1.try_for_some_item
        (collectCb (δ := Nat)) []).2.2
      = .ok false
    ∧ (Except.error (StreamError.SourceError 7) : StreamResult Bool Nat Nat)
      ≠ .ok false := by
  refine ⟨rfl, rfl, ?_⟩
  intro h
  cases h

/-- Claim C3, amended: once `JsonLdQuadSource` has reported completion its
state is a fixed point that keeps reporting exhausted; once it has raised
its producer error it moves to `Err none`, whose every poll also reports
exhausted (a terminal signal, though not a repetition of the error); in
neither case is a fresh record ever delivered (the callback is never
invoked: its state comes back unchanged, as the returned `st`). -/
theorem c3_terminal_states_no_fresh_record {Q ε σ δ : Type}
    (e : ε) (f : σ → Q → σ × Option δ) (st : σ) :
    (JsonLdQuadSource.Quads (ε := ε) ([] : List Q)).try_for_some_item f st
      = (.Quads [], st, .ok false)
    ∧ (JsonLdQuadSource.Err (Q := Q) (none : Option ε)).try_for_some_item f st
      = (.Err none, st, .ok false)
    ∧ ((JsonLdQuadSource.Err (Q := Q) (some e)).try_for_some_item f st).1
      = .Err none := by
  exact ⟨rfl, rfl, rfl⟩

/-- Model of one call to the production method of an arbitrary wrapped
`Source`: the call delivers a finite list of items to the callback and
then either returns `Ok(more)` (`emit`) or a producer error (`fail`).
A consumer error interrupts the delivery as the protocol requires. -/
inductive StepPlan (Item ε : Type) where
  | emit (items : List Item) (more : Bool)
  | fail (items : List Item) (e : ε)
deriving DecidableEq

/-- Model of an arbitrary wrapped `Source`: a list of planned calls (one
`StepPlan` is consumed per call to the production method; once the list is
empty every further call answers `Ok(false)`), together with an advisory
size-hint function of the remaining plan. -/
structure GSource (Item ε : Type) where
  steps : List (StepPlan Item ε)
  hintFn : List (StepPlan Item ε) → Nat × Option Nat

/-- The wrapped Source's `size_hint_items`, read off its current state. -/
def GSource.size_hint_items {Item ε : Type} (s : GSource Item ε) :
    Nat × Option Nat :=
  s.hintFn s.steps

/-- Delivery of a list of items to a fallible stateful callback, stopping
at the first callback error, as `try_for_some_item` implementations must
(the callback is not invoked again after an error has been decided). -/
def deliverList {Item σ δ : Type} (f : σ → Item → σ × Option δ) :
    σ → List Item → σ × Option δ
  | st, [] => (st, none)
  | st, i :: rest =>
    match f st i with
    | (st2, none) => deliverList f st2 rest
    | (st2, some e) => (st2, some e)

/-- `try_for_some_item` of the modelled wrapped Source: run the next
planned call, delivering its items to the callback (a callback failure
becomes `SinkError` and ends the call), then return the planned outcome;
with no plan left, answer `Ok(false)`. -/
def GSource.try_for_some_item {Item ε σ δ : Type} (s : GSource Item ε)
    (f : σ → Item → σ × Option δ) (st : σ) :
    GSource Item ε × σ × StreamResult Bool ε δ :=
  match s.steps with
  | [] => (⟨[], s.hintFn⟩, st, .ok false)
  | .emit items more :: rest =>
    match deliverList f st items with
    | (st2, none) => (⟨rest, s.hintFn⟩, st2, .ok more)
    | (st2, some e) => (⟨rest, s.hintFn⟩, st2, .error (.SinkError e))
  | .fail items e :: rest =>
    match deliverList f st items with
    | (st2, none) => (⟨rest, s.hintFn⟩, st2, .error (.SourceError e))
    | (st2, some e2) => (⟨rest, s.hintFn⟩, st2, .error (.SinkError e2))

/-- Modelled from the spec: `for_some_item`, the provided infallible-sink
variant of produce-some used by `MapSourceIterator::next` (its Rust body
lives in the part of sophia_api outside this slice): it calls
`try_for_some_item` with a callback that cannot fail, so a `SinkError` is
impossible and the result carries only the producer error. -/
def GSource.for_some_item {Item ε σ : Type} (s : GSource Item ε)
    (g : σ → Item → σ) (st : σ) : GSource Item ε × σ × Except ε Bool :=
  match s.try_for_some_item (fun st2 i => (g st2 i, (none : Option Empty))) st with
  | (s2, st2, .ok b) => (s2, st2, .ok b)
  | (s2, st2, .error (.SourceError e)) => (s2, st2, .error e)
  | (_, _, .error (.SinkError e)) => nomatch e

/-- Mirrors `MapSource` from `src/api/src/source/map.rs`: the wrapped
source and the transform.  The transform is an `FnMut` closure in Rust, so
it is embedded with an explicit captured state `φ`: `map` takes the
current captured state and an item and returns the updated state and the
transformed value. -/
structure MapSource (Item ε T φ : Type) where
  source : GSource Item ε
  map : φ → Item → φ × T
  mapState : φ

/-- Mirrors `MapSource::try_for_some_item`: delegate to the wrapped
source's `try_for_some_item`, with the callback `|t| f((map)(t))` — the
composed callback first applies the transform (threading its captured
state), then the caller's callback. -/
def MapSource.try_for_some_item {Item ε T φ σ δ : Type}
    (s : MapSource Item ε T φ) (f : σ → T → σ × Option δ) (st : σ) :
    MapSource Item ε T φ × σ × StreamResult Bool ε δ :=
  match s.source.try_for_some_item
      (fun p i =>
        match s.map p.1 i with
        | (ms2, v) =>
          match f p.2 v with
          | (st2, e2) => ((ms2, st2), e2))
      (s.mapState, st) with
  | (src2, p2, r) => (⟨src2, s.map, p2.1⟩, p2.2, r)

/-- Mirrors `MapSource::size_hint_items`: pass-through to the wrapped
source. -/
def MapSource.size_hint_items {Item ε T φ : Type}
    (s : MapSource Item ε T φ) : Nat × Option Nat :=
  s.source.size_hint_items

/-- Spec-side reference for the Map combinator's one-call behavior:
process the records of the call one at a time — apply the transform
exactly once to the record, forward the transformed value to the caller's
callback, and only then move on to the next record; a callback error ends
the processing, carrying the states as mutated so far. -/
def processItems {Item T φ σ δ : Type} (m : φ → Item → φ × T)
    (c : σ → T → σ × Option δ) : φ → σ → List Item → φ × σ × Option δ
  | ms, st, [] => (ms, st, none)
  | ms, st, i :: rest =>
    match m ms i with
    | (ms2, v) =>
      match c st v with
      | (st2, none) => processItems m c ms2 st2 rest
      | (st2, some e) => (ms2, st2, some e)

/-- Spec-side reference for a full `MapSource::try_for_some_item` call
over the modelled wrapped Source, built from `processItems`: the planned
records are processed transform-first, one at a time, in production order,
and the planned outcome (or the interrupting consumer error) is
returned. -/
def mapSpecCall {Item ε T φ σ δ : Type} (steps : List (StepPlan Item ε))
    (hf : List (StepPlan Item ε) → Nat × Option Nat)
    (m : φ → Item → φ × T) (ms : φ)
    (c : σ → T → σ × Option δ) (st : σ) :
    MapSource Item ε T φ × σ × StreamResult Bool ε δ :=
  match steps with
  | [] => (⟨⟨[], hf⟩, m, ms⟩, st, .ok false)
  | .emit items more :: rest =>
    match processItems m c ms st items with
    | (ms2, st2, none) => (⟨⟨rest, hf⟩, m, ms2⟩, st2, .ok more)
    | (ms2, st2, some e) => (⟨⟨rest, hf⟩, m, ms2⟩, st2, .error (.SinkError e))
  | .fail items e :: rest =>
    match processItems m c ms st items with
    | (ms2, st2, none) => (⟨⟨rest, hf⟩, m, ms2⟩, st2, .error (.SourceError e))
    | (ms2, st2, some e2) => (⟨⟨rest, hf⟩, m, ms2⟩, st2, .error (.SinkError e2))

lemma deliverList_composed {Item T φ σ δ : Type} (m : φ → Item → φ × T)
    (c : σ → T → σ × Option δ) :
    ∀ (items : List Item) (ms : φ) (st : σ),
      deliverList
        (fun p i =>
          match m p.1 i with
          | (ms2, v) =>
            match c p.2 v with
            | (st2, e2) => ((ms2, st2), e2))
        (ms, st) items
      = (((processItems m c ms st items).1,
          (processItems m c ms st items).2.1),
         (processItems m c ms st items).2.2) := by
  intro items
  induction items with
  | nil => intro ms st; rfl
  | cons i rest ih =>
    intro ms st
    simp only [deliverList, processItems]
    rcases hm : m ms i with ⟨ms2, v⟩
    rcases hc : c st v with ⟨st2, e2⟩
    cases e2 with
    | none => simpa using ih ms2 st2
    | some e => rfl

/-- Claim C6: a `MapSource::try_for_some_item` call over the modelled
wrapped Source equals its spec-side reference `mapSpecCall`: the
(possibly stateful) transform is applied exactly once to each record the
wrapped Source produces in that call, in production order, and each
transformed value is forwarded to the caller's callback before the next
record is processed — no record is skipped or reordered. -/
theorem c6_map_interposes_transform {Item ε T φ σ δ : Type}
    (src : GSource Item ε) (m : φ → Item → φ × T) (ms : φ)
    (c : σ → T → σ × Option δ) (st : σ) :
    MapSource.try_for_some_item ⟨src, m, ms⟩ c st
      = mapSpecCall src.steps src.hintFn m ms c st := by
  rcases src with ⟨steps, hf⟩
  cases steps with
  | nil => rfl
  | cons step rest =>
    cases step with
    | emit items more =>
      simp only [MapSource.try_for_some_item, GSource.try_for_some_item,
        mapSpecCall]
      rw [deliverList_composed m c items ms st]
      rcases h : processItems m c ms st items with ⟨ms2, st2, e2⟩
      cases e2 <;> simp
    | fail items e =>
      simp only [MapSource.try_for_some_item, GSource.try_for_some_item,
        mapSpecCall]
      rw [deliverList_composed m c items ms st]
      rcases h : processItems m c ms st items with ⟨ms2, st2, e2⟩
      cases e2 <;> simp

/-- Claim C7: the size hint of a mapped Source is the size hint of the
wrapped Source, passed through unchanged. -/
theorem c7_size_hint_passthrough {Item ε T φ : Type}
    (s : MapSource Item ε T φ) :
    s.size_hint_items = s.source.size_hint_items := rfl

/-- Stateful map over a list, threading the transform's captured state and
returning the transformed values in order. -/
def mapAccum {Item φ T : Type} (m : φ → Item → φ × T) :
    φ → List Item → φ × List T
  | ms, [] => (ms, [])
  | ms, i :: rest =>
    match m ms i with
    | (ms2, v) =>
      match mapAccum m ms2 rest with
      | (ms3, vs) => (ms3, v :: vs)

/-- The callback the bridge passes to `for_some_item`:
`|i| buffer.push_back(Ok((self.map)(i)))` — its state is the pair of the
transform's captured state and the buffer. -/
def pushCb {Item ε T φ : Type} (m : φ → Item → φ × T) :
    φ × List (Except ε T) → Item → φ × List (Except ε T) :=
  fun p i =>
    match m p.1 i with
    | (ms2, v) => (ms2, p.2 ++ [Except.ok v])

/-- Mirrors the `while buffer.is_empty() && remaining` loop of
`MapSourceIterator::next`: with a non-empty buffer the loop body never
runs; otherwise one `for_some_item` call is played per iteration —
its freshly produced `Ok` items fill the buffer, a producer error is
appended as a final `Err` entry and stops the loop, and the loop continues
only while the buffer is still empty and the source answered `Ok(true)`.
(`nextLoop_step` below proves each iteration agrees with
`GSource.for_some_item` driven by `pushCb`.) -/
def nextLoop {Item ε T φ : Type} (m : φ → Item → φ × T) :
    List (StepPlan Item ε) → φ → List (Except ε T) →
    List (StepPlan Item ε) × φ × List (Except ε T)
  | steps, ms, x :: bs => (steps, ms, x :: bs)
  | [], ms, [] => ([], ms, [])
  | .emit items more :: rest, ms, [] =>
    match mapAccum m ms items with
    | (ms2, vs) =>
      match more, vs with
      | true, [] => nextLoop m rest ms2 []
      | true, v :: vs2 => (rest, ms2, (v :: vs2).map Except.ok)
      | false, vs2 => (rest, ms2, vs2.map Except.ok)
  | .fail items e :: rest, ms, [] =>
    match mapAccum m ms items with
    | (ms2, vs) => (rest, ms2, vs.map Except.ok ++ [Except.error e])

/-- Mirrors `MapSourceIterator` from `src/api/src/source/map.rs`: the
wrapped source, the transform (with its captured state), and the
`VecDeque` buffer of already-produced results (head = front). -/
structure MapSourceIterator (Item ε T φ : Type) where
  source : GSource Item ε
  map : φ → Item → φ × T
  mapState : φ
  buffer : List (Except ε T)

/-- Mirrors `MapSource::into_iter`: hand over source and transform, with
an empty buffer. -/
def MapSource.into_iter {Item ε T φ : Type} (s : MapSource Item ε T φ) :
    MapSourceIterator Item ε T φ :=
  ⟨s.source, s.map, s.mapState, []⟩

/-- Mirrors `MapSourceIterator::next`: run the buffer-filling loop, then
pop the buffer's front entry if any, `None` otherwise. -/
def MapSourceIterator.next {Item ε T φ : Type}
    (it : MapSourceIterator Item ε T φ) :
    Option (Except ε T) × MapSourceIterator Item ε T φ :=
  match nextLoop it.map it.source.steps it.mapState it.buffer with
  | (steps2, ms2, []) => (none, ⟨⟨steps2, it.source.hintFn⟩, it.map, ms2, []⟩)
  | (steps2, ms2, x :: bs) => (some x, ⟨⟨steps2, it.source.hintFn⟩, it.map, ms2, bs⟩)

/-- Mirrors `MapSourceIterator::size_hint`: report the wrapped source's
`size_hint_items`, ignoring the buffer. -/
def MapSourceIterator.size_hint {Item ε T φ : Type}
    (it : MapSourceIterator Item ε T φ) : Nat × Option Nat :=
  it.source.size_hint_items

lemma deliverList_infallible {Item σ : Type} (g : σ → Item → σ) :
    ∀ (items : List Item) (st : σ),
      deliverList (fun st2 i => (g st2 i, (none : Option Empty))) st items
      = (items.foldl g st, none) := by
  intro items
  induction items with
  | nil => intro st; rfl
  | cons i rest ih => intro st; simpa [deliverList] using ih (g st i)

lemma foldl_pushCb {Item ε T φ : Type} (m : φ → Item → φ × T) :
    ∀ (items : List Item) (ms : φ) (buf : List (Except ε T)),
      items.foldl (pushCb m) (ms, buf)
      = ((mapAccum m ms items).1,
         buf ++ ((mapAccum m ms items).2).map Except.ok) := by
  intro items
  induction items with
  | nil => intro ms buf; simp [mapAccum]
  | cons i rest ih =>
    intro ms buf
    simp only [List.foldl, mapAccum, pushCb]
    rcases hm : m ms i with ⟨ms2, v⟩
    rcases ha : mapAccum m ms2 rest with ⟨ms3, vs⟩
    have h2 := ih ms2 (buf ++ [Except.ok v])
    rw [List.append_assoc] at h2
    simpa [ha] using h2

/-- Each iteration of the loop in `MapSourceIterator::next` agrees with
one `GSource.for_some_item` call driven by `pushCb`: the definition of
`nextLoop` is faithful to the Rust loop body. -/
lemma nextLoop_step {Item ε T φ : Type} (m : φ → Item → φ × T)
    (hf : List (StepPlan Item ε) → Nat × Option Nat) :
    ∀ (steps : List (StepPlan Item ε)) (ms : φ),
      nextLoop m steps ms []
      = (match GSource.for_some_item ⟨steps, hf⟩ (pushCb m) (ms, []) with
         | (s2, p2, .ok true) =>
           match p2.2 with
           | [] => nextLoop m s2.steps p2.1 []
           | x :: bs => (s2.steps, p2.1, x :: bs)
         | (s2, p2, .ok false) => (s2.steps, p2.1, p2.2)
         | (s2, p2, .error e) => (s2.steps, p2.1, p2.2 ++ [Except.error e])) := by
  intro steps ms
  cases steps with
  | nil => rfl
  | cons step rest =>
    cases step with
    | emit items more =>
      simp only [GSource.for_some_item, GSource.try_for_some_item,
        deliverList_infallible (pushCb m) items (ms, []),
        foldl_pushCb m items ms []]
      rcases ha : mapAccum m ms items with ⟨ms2, vs⟩
      cases more with
      | true => cases vs with
        | nil => simp [nextLoop, ha]
        | cons v vs2 => simp [nextLoop, ha]
      | false => cases vs with
        | nil => simp [nextLoop, ha]
        | cons v vs2 => simp [nextLoop, ha]
    | fail items e =>
      simp only [GSource.for_some_item, GSource.try_for_some_item,
        deliverList_infallible (pushCb m) items (ms, []),
        foldl_pushCb m items ms []]
      rcases ha : mapAccum m ms items with ⟨ms2, vs⟩
      simp [nextLoop, ha]

/-- Claim C2, counterexample: the bridge does poll the wrapped Source
again after a terminal signal (`remaining` is a local of `next`, reset on
every call), so termination is not permanent for an arbitrary wrapped
Source.  First scenario: the source signals exhaustion, then produces 5 —
`next` answers `none` and then `some (ok 5)`, a fresh item after
end-of-sequence.  Second scenario: the source raises a producer error,
then produces 7 — `next` answers the error and then `some (ok 7)`, a
fresh item after the error instead of a repeated terminal signal. -/
theorem c2_cex_bridge_repolls :
    ((⟨⟨[.emit [] false, .emit [5] true], fun _ => (0, none)⟩,
        fun u i => (u, i), (), []⟩ :
        MapSourceIterator Nat Nat Nat Unit).next.1 = none
      ∧ ((⟨⟨[.emit [] false, .emit [5] true], fun _ => (0, none)⟩,
          fun u i => (u, i), (), []⟩ :
          MapSourceIterator Nat Nat Nat Unit).next.2.next.1 = some (.ok 5)
      ∧ some (Except.ok (ε := StreamError Nat Nat) 5) ≠ none))
    ∧ ((⟨⟨[.fail [] 3, .emit [7] true], fun _ => (0, none)⟩,
        fun u i => (u, i), (), []⟩ :
        MapSourceIterator Nat Nat Nat Unit).next.1 = some (.error 3)
      ∧ (⟨⟨[.fail [] 3, .emit [7] true], fun _ => (0, none)⟩,
          fun u i => (u, i), (), []⟩ :
          MapSourceIterator Nat Nat Nat Unit).next.2.next.1 = some (.ok 7)) := by
  refine ⟨⟨rfl, rfl, ?_⟩, rfl, rfl⟩
  intro h
  cases h

/-- Claim C2, amended: once the wrapped Source has nothing left to produce
and the buffer is empty, every subsequent call to `next` returns `None`
and leaves the iterator unchanged — so the terminal signal is permanent
for well-behaved Sources; the bridge does, however, re-invoke the wrapped
Source's production method on each such call (`remaining` is reset), so
the permanence relies on the Source itself staying exhausted. -/
theorem c2_bridge_exhausted_fixpoint {Item ε T φ : Type}
    (hf : List (StepPlan Item ε) → Nat × Option Nat)
    (m : φ → Item → φ × T) (ms : φ) :
    (MapSourceIterator.mk ⟨([] : List (StepPlan Item ε)), hf⟩ m ms []).next
      = (none, ⟨⟨[], hf⟩, m, ms, []⟩) := rfl

/-- Per-step item count of the modelled wrapped Source, used to build an
honest size hint. -/
def StepPlan.itemCount {Item ε : Type} : StepPlan Item ε → Nat
  | .emit items _ => items.length
  | .fail items _ => items.length

/-- Total number of items the modelled wrapped Source will still
produce. -/
def countItems {Item ε : Type} (steps : List (StepPlan Item ε)) : Nat :=
  (steps.map StepPlan.itemCount).sum

/-- An exact size hint for the modelled wrapped Source: lower and upper
bound both equal to the number of items it will still produce. -/
def exactHint {Item ε : Type} :
    List (StepPlan Item ε) → Nat × Option Nat :=
  fun steps => (countItems steps, some (countItems steps))

/-- Claim C10: `MapSourceIterator::size_hint` reports exactly the wrapped
Source's current size hint, ignoring the buffer; concretely, a source
whose single burst produces two items (honestly hinting 2 beforehand and
0 once drained) yields `ok 10` on the first pull, after which the hint's
upper bound is 0 although the iterator still yields one more item,
`ok 20`. -/
theorem c10_iterator_size_hint_ignores_buffer :
    (∀ (Item ε T φ : Type) (it : MapSourceIterator Item ε T φ),
      it.size_hint = it.source.size_hint_items)
    ∧ (let it0 : MapSourceIterator Nat Nat Nat Unit :=
        ⟨⟨[.emit [10, 20] false], exactHint⟩, fun u i => (u, i), (), []⟩
       it0.size_hint = (2, some 2)
       ∧ it0.next.1 = some (.ok 10)
       ∧ it0.next.2.size_hint = (0, some 0)
       ∧ it0.next.2.buffer = [Except.ok 20]
       ∧ it0.next.2.next.1 = some (.ok 20)) := by
  exact ⟨fun Item ε T φ it => rfl, rfl, rfl, rfl, rfl, rfl⟩

/-- A pure transform, embedded as an FnMut with trivial captured state. -/
def pureMap {Item T : Type} (f : Item → T) : Unit → Item → Unit × T :=
  fun _ i => ((), f i)

/-- Collect the pull bridge's output by calling `next` until it answers
`None`; `fuel` bounds the number of calls. -/
def MapSourceIterator.toListFuel {Item ε T φ : Type} :
    Nat → MapSourceIterator Item ε T φ → List (Except ε T)
  | 0, _ => []
  | Nat.succ n, it =>
    match it.next with
    | (none, _) => []
    | (some x, it2) => x :: toListFuel n it2

lemma toListFuel_succ {Item ε T φ : Type} (n : Nat)
    (it : MapSourceIterator Item ε T φ) :
    MapSourceIterator.toListFuel (n + 1) it
    = (match it.next with
       | (none, _) => []
       | (some x, it2) => x :: MapSourceIterator.toListFuel n it2) := rfl

lemma driveN_succ {α σ ε3 : Type} (step : α → σ → α × σ × Except ε3 Bool)
    (n : Nat) (a : α) (st : σ) :
    driveN step (n + 1) a st
    = (match step a st with
       | (a2, st2, .ok true) => driveN step n a2 st2
       | (a2, st2, .ok false) => (a2, st2, .ok false)
       | (a2, st2, .error e) => (a2, st2, .error e)) := rfl

lemma mapAccum_pureMap {Item T : Type} (f : Item → T) :
    ∀ (items : List Item) (u : Unit),
      mapAccum (pureMap f) u items = ((), items.map f) := by
  intro items
  induction items with
  | nil => intro u; rfl
  | cons i rest ih => intro u; simp [mapAccum, pureMap, ih]

lemma toListFuel_drain {Item ε T φ : Type} :
    ∀ (buf : List (Except ε T)) (n : Nat) (src : GSource Item ε)
      (m : φ → Item → φ × T) (ms : φ),
      MapSourceIterator.toListFuel (buf.length + n) ⟨src, m, ms, buf⟩
      = buf ++ MapSourceIterator.toListFuel n ⟨src, m, ms, []⟩ := by
  intro buf
  induction buf with
  | nil => intro n src m ms; simp
  | cons x bs ih =>
    intro n src m ms
    have hl : (x :: bs).length + n = (bs.length + n) + 1 := by
      simp [List.length_cons]; omega
    rw [hl, toListFuel_succ]
    have hnext : (⟨src, m, ms, x :: bs⟩ : MapSourceIterator Item ε T φ).next
        = (some x, ⟨src, m, ms, bs⟩) := by
      simp [MapSourceIterator.next, nextLoop]
    rw [hnext]
    simp [ih n src m ms]

lemma toListFuel_congr {Item ε T φ : Type}
    {it it2 : MapSourceIterator Item ε T φ} (h : it.next = it2.next)
    (n : Nat) :
    MapSourceIterator.toListFuel (n + 1) it
    = MapSourceIterator.toListFuel (n + 1) it2 := by
  rw [toListFuel_succ, toListFuel_succ, h]

lemma pull_collect {Item ε T : Type} (f : Item → T)
    (hf : List (StepPlan Item ε) → Nat × Option Nat) :
    ∀ (bursts : List (List Item)) (n : Nat),
      MapSourceIterator.toListFuel ((bursts.flatten).length + bursts.length + 1 + n)
        ⟨⟨bursts.map (fun b => .emit b true), hf⟩, pureMap f, (), []⟩
      = ((bursts.flatten).map f).map Except.ok := by
  intro bursts
  induction bursts with
  | nil =>
    intro n
    have hl : ((List.flatten ([] : List (List Item))).length
        + ([] : List (List Item)).length + 1 + n) = n + 1 := by
      simp
      omega
    rw [hl, toListFuel_succ]
    simp [MapSourceIterator.next, nextLoop]
  | cons b bs ih =>
    intro n
    cases b with
    | nil =>
      have hnl : nextLoop (pureMap f)
          (StepPlan.emit (ε := ε) ([] : List Item) true
            :: bs.map (fun b => .emit b true)) () ([] : List (Except ε T))
          = nextLoop (pureMap f) (bs.map (fun b => .emit b true)) () [] := by
        simp [nextLoop, mapAccum]
      have hnext :
          (⟨⟨(([] : List Item) :: bs).map (fun b => .emit b true), hf⟩,
            pureMap f, (), []⟩ : MapSourceIterator Item ε T Unit).next
          = (⟨⟨bs.map (fun b => .emit b true), hf⟩,
            pureMap f, (), []⟩ : MapSourceIterator Item ε T Unit).next := by
        simp only [MapSourceIterator.next, List.map_cons]
        rw [hnl]
      have hl : ((List.flatten (([] : List Item) :: bs)).length
          + (([] : List Item) :: bs).length + 1 + n)
          = ((bs.flatten).length + bs.length + 1 + n) + 1 := by
        simp [List.flatten]; omega
      rw [hl, toListFuel_congr hnext]
      have hres := ih (n + 1)
      simpa using hres
    | cons v vs =>
      have hnext :
          (⟨⟨((v :: vs) :: bs).map (fun b => .emit b true), hf⟩,
            pureMap f, (), []⟩ : MapSourceIterator Item ε T Unit).next
          = (some (.ok (f v)),
             ⟨⟨bs.map (fun b => .emit b true), hf⟩, pureMap f, (),
              ((vs.map f).map Except.ok)⟩) := by
        simp [MapSourceIterator.next, List.map_cons, nextLoop,
          mapAccum_pureMap, pureMap]
      have hl : ((List.flatten ((v :: vs) :: bs)).length
          + ((v :: vs) :: bs).length + 1 + n)
          = (vs.length + ((bs.flatten).length + bs.length + 1 + (n + 1))) + 1 := by
        simp [List.flatten]; omega
      rw [hl, toListFuel_succ, hnext]
      dsimp only
      have hb : vs.length + ((bs.flatten).length + bs.length + 1 + (n + 1))
          = ((vs.map f).map (Except.ok (ε := ε))).length
            + ((bs.flatten).length + bs.length + 1 + (n + 1)) := by simp
      rw [hb, toListFuel_drain ((vs.map f).map (Except.ok (ε := ε)))
        ((bs.flatten).length + bs.length + 1 + (n + 1))
        ⟨bs.map (fun b => .emit b true), hf⟩ (pureMap f) ()]
      rw [ih (n + 1)]
      simp [List.flatten]

lemma processItems_pure_collect {Item T δ : Type} (f : Item → T) :
    ∀ (items : List Item) (acc : List T),
      processItems (pureMap f) (collectCb (δ := δ)) () acc items
      = ((), acc ++ items.map f, none) := by
  intro items
  induction items with
  | nil => intro acc; simp [processItems]
  | cons i rest ih =>
    intro acc
    simp only [processItems, pureMap, collectCb]
    have h2 := ih (acc ++ [f i])
    rw [List.append_assoc] at h2
    simpa using h2

lemma push_drive {Item ε T δ : Type} (f : Item → T)
    (hf : List (StepPlan Item ε) → Nat × Option Nat) :
    ∀ (bursts : List (List Item)) (acc : List T),
      driveN (fun (s : MapSource Item ε T Unit) st =>
          s.try_for_some_item (collectCb (δ := δ)) st)
        (bursts.length + 1)
        ⟨⟨bursts.map (fun b => .emit b true), hf⟩, pureMap f, ()⟩ acc
      = (⟨⟨[], hf⟩, pureMap f, ()⟩, acc ++ (bursts.flatten).map f, .ok false) := by
  intro bursts
  induction bursts with
  | nil =>
    intro acc
    simp [driveN, MapSource.try_for_some_item, GSource.try_for_some_item]
  | cons b bs ih =>
    intro acc
    have hstep : MapSource.try_for_some_item
        ⟨⟨(b :: bs).map (fun b => .emit b true), hf⟩, pureMap f, ()⟩
        (collectCb (δ := δ)) acc
        = (⟨⟨bs.map (fun b => .emit b true), hf⟩, pureMap f, ()⟩,
           acc ++ b.map f, .ok true) := by
      simp only [MapSource.try_for_some_item, GSource.try_for_some_item,
        List.map_cons]
      rw [deliverList_composed (pureMap f) (collectCb (δ := δ)) b () acc]
      rw [processItems_pure_collect f b acc]
    have hl : (b :: bs).length + 1 = (bs.length + 1) + 1 := by
      simp [List.length_cons]
    rw [hl, driveN_succ, hstep]
    have h2 := ih (acc ++ b.map f)
    rw [List.append_assoc] at h2
    simpa [List.flatten] using h2

/-- Claim C1: for every finite record sequence presented as any burst
partition `bursts` delivered by the wrapped Source, and every pure
transform `f`, the Map combinator produces exactly
`[f(s) for s in bursts.flatten]`, in original order, identically via push
(driving `MapSource::try_for_some_item` with a collecting callback) and
via pull (collecting the iterator that `into_iter` produces, whose
successful entries are the same list wrapped in `Ok`). -/
theorem c1_map_push_pull_agree {Item ε T δ : Type}
    (bursts : List (List Item)) (f : Item → T)
    (hf : List (StepPlan Item ε) → Nat × Option Nat) :
    (driveN (fun (s : MapSource Item ε T Unit) st =>
          s.try_for_some_item (collectCb (δ := δ)) st)
        (bursts.length + 1)
        ⟨⟨bursts.map (fun b => .emit b true), hf⟩, pureMap f, ()⟩ []).2
      = ((bursts.flatten).map f, .ok false)
    ∧ MapSourceIterator.toListFuel ((bursts.flatten).length + bursts.length + 1)
        (MapSource.into_iter
          ⟨⟨bursts.map (fun b => .emit b true), hf⟩, pureMap f, ()⟩)
      = ((bursts.flatten).map f).map Except.ok := by
  constructor
  · rw [push_drive f hf bursts []]
    simp
  · exact pull_collect f hf bursts 0

end Sophia
